import Mathlib

/- Verification of the soevent map fetcher (src/main.rs, src/imp.rs).
   The network and the filesystem are modelled as oracles and effect
   traces; the pure control flow of each Rust function is translated
   directly. Byte strings are lists of naturals; paths are lists of
   segments, mirroring PathBuf::join. -/

namespace Soevent

/-- Rust struct SimpleEventEdition (main.rs lines 115-119): id is u32. -/
structure SimpleEventEdition where
  id : Nat
  name : String
deriving DecidableEq

/-- Rust struct Map (main.rs lines 22-26): mx_id is i64. -/
structure Map where
  mx_id : Int
  map_uid : String
deriving DecidableEq

/-- Rust struct Category (main.rs lines 34-38). -/
structure Category where
  handle : String
  maps : List Map
deriving DecidableEq

/-- Rust struct EventEdition (main.rs lines 40-45): mx_id is i32. -/
structure EventEdition where
  name : String
  mx_id : Int
  categories : List Category
deriving DecidableEq

/-- Outcome of running a fallible Rust function: a normal return value,
    an anyhow error, or a panic (e.g. Option::unwrap on None). -/
inductive RunResult (α : Type) where
  | ok : α → RunResult α
  | err : String → RunResult α
  | panic : RunResult α
deriving DecidableEq

def RunResult.map {α β : Type} (f : α → β) : RunResult α → RunResult β
  | .ok a => .ok (f a)
  | .err e => .err e
  | .panic => .panic

/-- True exactly when the outcome is a returned error (not a panic). -/
def RunResult.isErr {α : Type} : RunResult α → Bool
  | .err _ => true
  | _ => false

/-- Left fold step of Rust Iterator::max_by_key over the id field:
    std::cmp::max_by keeps the second argument when the keys are equal,
    so the last maximal element wins. -/
def pickMax (x : SimpleEventEdition) (xs : List SimpleEventEdition) : SimpleEventEdition :=
  xs.foldl (fun acc y => if acc.id ≤ y.id then y else acc) x

/-- Rust Iterator::max_by_key on the id field (imp.rs line 43):
    none on an empty iterator, otherwise the last element with maximal id. -/
def max_by_id : List SimpleEventEdition → Option SimpleEventEdition
  | [] => none
  | x :: xs => some (pickMax x xs)

/-- imp.rs lines 25-46, get_last_edition_of, given the combined outcome of
    the send and the Vec of SimpleEventEdition deserialization. The body
    runs max_by_key over the list and calls .unwrap() on the option, which
    panics when the list is empty. -/
def get_last_edition_of (resp : Except String (List SimpleEventEdition)) :
    RunResult SimpleEventEdition :=
  match resp with
  | .error e => .err e
  | .ok editions =>
    match max_by_id editions with
    | some ed => .ok ed
    | none => .panic

/-- imp.rs line 30: the URL of the edition-list query. -/
def get_last_edition_of_url (host event_handle : String) : String :=
  host ++ "/event/" ++ event_handle

/-- imp.rs line 12: the URL of the edition-metadata query. -/
def get_event_edition_url (host handle : String) (edition : Nat) : String :=
  host ++ "/event/" ++ handle ++ "/" ++ toString edition

/-- main.rs line 71: the host literal the default (non-localhost_test)
    build passes to imp::get_event_edition. -/
def defaultEventEditionHost : String := "https://obstacle.titlepack.io/api"

/-- main.rs line 143: the host literal the default (non-localhost_test)
    build passes to imp::get_last_edition_of. -/
def defaultLastEditionHost : String := "https::/obstacle.titlepack.io/api"

/-- An HTTP request as issued by the client: URL plus explicit headers. -/
structure HttpRequest where
  url : String
  headers : List (String × String)
deriving DecidableEq

instance {ε α : Type} [DecidableEq ε] [DecidableEq α] : DecidableEq (Except ε α)
  | .error a, .error b =>
    if h : a = b then .isTrue (by rw [h]) else .isFalse (by intro hh; cases hh; exact h rfl)
  | .error _, .ok _ => .isFalse (by intro hh; cases hh)
  | .ok _, .error _ => .isFalse (by intro hh; cases hh)
  | .ok a, .ok b =>
    if h : a = b then .isTrue (by rw [h]) else .isFalse (by intro hh; cases hh; exact h rfl)

/-- An HTTP response: its status code and the outcome of reading the body
    (reqwest Response::bytes reads the body whatever the status is and can
    fail only while reading). -/
structure HttpResponse where
  status : Nat
  body : Except String (List Nat)
deriving DecidableEq

/-- main.rs line 86: the fixed identifying User-Agent header. -/
def userAgentHeader : String × String := ("User-Agent", "obstacle (discord @ahmadbky)")

/-- main.rs lines 81-86: the one request download_map issues. -/
def downloadMapRequest (map : Map) : HttpRequest :=
  { url := "https://sm.mania.exchange/maps/download/" ++ toString map.mx_id,
    headers := [userAgentHeader] }

/-- main.rs lines 74-93, download_map: issues its one request through the
    send oracle, then reads the body; the status is never inspected.
    Returns the list of requests issued and the result. -/
def download_map (map : Map) (send : HttpRequest → Except String HttpResponse) :
    List HttpRequest × Except String (String × List Nat) :=
  ([downloadMapRequest map],
    match send (downloadMapRequest map) with
    | .error e => .error e
    | .ok resp =>
      match resp.body with
      | .error e => .error ("Unable to get bytes from response body: " ++ e)
      | .ok bs => .ok (map.map_uid, bs))

/-- futures TryStreamExt::try_collect over a finished list of outcomes:
    the first error short-circuits, otherwise all values are collected
    in order. -/
def try_collect {α : Type} : List (Except String α) → Except String (List α)
  | [] => .ok []
  | .error e :: _ => .error e
  | .ok x :: rest =>
    match try_collect rest with
    | .error e => .error e
    | .ok xs => .ok (x :: xs)

/-- main.rs lines 96-113, download_category: one download_map per map of
    the category, collected with try_collect; on success the category
    handle is paired with all (map_uid, bytes) results. -/
def download_category (cat : Category) (send : HttpRequest → Except String HttpResponse) :
    Except String (String × List (String × List Nat)) :=
  match try_collect (cat.maps.map fun m => (download_map m send).2) with
  | .error e => .error ("Unable to collect maps downloads: " ++ e)
  | .ok results => .ok (cat.handle, results)

/-- A filesystem effect of the orchestrator: create_dir_all on a path, or
    write the given bytes to a file at a path. Paths are segment lists. -/
inductive FsOp where
  | mkdirAll : List String → FsOp
  | writeFile : List String → List Nat → FsOp
deriving DecidableEq

/-- main.rs lines 193-199, the body of the write loop for one completed
    category: create the category directory, then write each map file
    named map_uid ++ ".Map.Gbx" inside it. -/
def writeCategory (out_path : List String) (cat_handle : String)
    (maps : List (String × List Nat)) : List FsOp :=
  FsOp.mkdirAll (out_path ++ [cat_handle]) ::
    maps.map fun p => FsOp.writeFile (out_path ++ [cat_handle, p.1 ++ ".Map.Gbx"]) p.2

/-- main.rs lines 191-200, the while loop over completed category results:
    the first error aborts the loop (cat?); otherwise each category is
    persisted in turn. Returns the filesystem effects performed and the
    error that aborted the loop, if any. -/
def writeLoop (out_path : List String) :
    List (Except String (String × List (String × List Nat))) → List FsOp × Option String
  | [] => ([], none)
  | .error e :: _ => ([], some e)
  | .ok (h, maps) :: rest =>
    let r := writeLoop out_path rest
    (writeCategory out_path h maps ++ r.1, r.2)

/-- main.rs lines 184-200: the orchestrator downloads every category of
    the edition and persists the results under
    out/event_handle/edition (main.rs line 189). -/
def runPipeline (out event_handle : String) (edition : Nat) (ev : EventEdition)
    (send : HttpRequest → Except String HttpResponse) : List FsOp × Option String :=
  writeLoop [out, event_handle, toString edition]
    (ev.categories.map fun cat => download_category cat send)

/-- Replace the leading segment of the path of a filesystem effect. -/
def FsOp.rehead (root : String) : FsOp → FsOp
  | .mkdirAll p => .mkdirAll (root :: p.tail)
  | .writeFile p b => .writeFile (root :: p.tail) b

/-- The network environment of edition resolution: the outcome of the
    edition-list query for each event handle. -/
structure Oracles where
  lastEdition : String → Except String (List SimpleEventEdition)

/-- main.rs line 165: the usage error message. -/
def usageErrorMsg : String := "Cannot provide an edition ID without an event handle"

/-- main.rs lines 154-175, the argument match of main: resolves the pair
    (event_handle, edition id), counting the network calls made. Both
    supplied: no call. Handle only: one edition-list query. Edition only:
    immediate usage error, no call. Neither: defaults the handle to
    "campaign" and makes one edition-list query for it. -/
def mainResolve (o : Oracles) :
    Option String → Option Nat → RunResult (String × Nat) × Nat
  | some event, some edition => (.ok (event, edition), 0)
  | some event, none =>
      ((get_last_edition_of (o.lastEdition event)).map fun ed => (event, ed.id), 1)
  | none, some _ => (.err usageErrorMsg, 0)
  | none, none =>
      ((get_last_edition_of (o.lastEdition "campaign")).map fun ed => ("campaign", ed.id), 1)

/- Helper lemmas shared by the claims. -/

theorem pickMax_mem (x : SimpleEventEdition) (xs : List SimpleEventEdition) :
    pickMax x xs ∈ x :: xs := by
  induction xs generalizing x with
  | nil => simp [pickMax]
  | cons y ys ih =>
    have step : pickMax x (y :: ys) = pickMax (if x.id ≤ y.id then y else x) ys := by
      simp [pickMax]
    rw [step]
    rcases List.mem_cons.mp (ih (if x.id ≤ y.id then y else x)) with h | h
    · rw [h]
      by_cases hxy : x.id ≤ y.id <;> simp [hxy]
    · exact List.mem_cons_of_mem _ (List.mem_cons_of_mem _ h)

theorem pickMax_le (x : SimpleEventEdition) (xs : List SimpleEventEdition) :
    ∀ y ∈ x :: xs, y.id ≤ (pickMax x xs).id := by
  induction xs generalizing x with
  | nil =>
    intro y hy
    rcases List.mem_cons.mp hy with h | h
    · rw [h]; exact le_rfl
    · simp at h
  | cons z zs ih =>
    intro y hy
    have step : pickMax x (z :: zs) = pickMax (if x.id ≤ z.id then z else x) zs := by
      simp [pickMax]
    rw [step]
    have hbase : x.id ≤ (pickMax (if x.id ≤ z.id then z else x) zs).id := by
      refine le_trans ?_ (ih _ _ (List.mem_cons_self _ _))
      by_cases hxz : x.id ≤ z.id <;> simp [hxz]
    have hz : z.id ≤ (pickMax (if x.id ≤ z.id then z else x) zs).id := by
      refine le_trans ?_ (ih _ _ (List.mem_cons_self _ _))
      by_cases hxz : x.id ≤ z.id <;> simp [hxz]
      omega
    rcases List.mem_cons.mp hy with h | h
    · rw [h]; exact hbase
    · rcases List.mem_cons.mp h with h2 | h2
      · rw [h2]; exact hz
      · exact ih _ y (List.mem_cons_of_mem _ h2)

theorem writeLoop_writeFile_shape (d : List String)
    (results : List (Except String (String × List (String × List Nat))))
    (p : List String) (b : List Nat)
    (h : FsOp.writeFile p b ∈ (writeLoop d results).1) :
    ∃ c u, p = d ++ [c, u ++ ".Map.Gbx"] ∧
      ∃ ms, Except.ok (c, ms) ∈ results ∧ (u, b) ∈ ms := by
  induction results with
  | nil => simp [writeLoop] at h
  | cons r rest ih =>
    match r with
    | .error e => simp [writeLoop] at h
    | .ok (c, ms) =>
      simp only [writeLoop, List.mem_append] at h
      rcases h with h | h
      · simp only [writeCategory, List.mem_cons] at h
        rcases h with h | h
        · cases h
        · rcases List.mem_map.mp h with ⟨⟨u, bs⟩, hmem, heq⟩
          cases heq
          exact ⟨c, u, rfl, ms, List.mem_cons_self _ _, hmem⟩
      · rcases ih h with ⟨c', u', hp, ms', hms', hu'⟩
        exact ⟨c', u', hp, ms', List.mem_cons_of_mem _ hms', hu'⟩

theorem writeLoop_rehead (root root' : String) (d : List String)
    (results : List (Except String (String × List (String × List Nat)))) :
    (writeLoop (root' :: d) results).1 =
      ((writeLoop (root :: d) results).1).map (FsOp.rehead root') := by
  induction results with
  | nil => simp [writeLoop]
  | cons r rest ih =>
    match r with
    | .error e => simp [writeLoop]
    | .ok (c, ms) =>
      simp only [writeLoop, List.map_append, ih]
      congr 1
      simp [writeCategory, FsOp.rehead]

/- Claim theorems. -/

/-- C1 (counterexample to the claim as stated): on a response that
    deserializes to the empty edition list, get_last_edition_of does not
    return an error: it panics (the .unwrap() of imp.rs line 44 on None). -/
theorem C1_claim_counterexample :
    (get_last_edition_of (Except.ok ([] : List SimpleEventEdition))).isErr = false ∧
    get_last_edition_of (Except.ok ([] : List SimpleEventEdition)) = RunResult.panic :=
  ⟨rfl, rfl⟩

/-- C1 (amended): for every event-editions response that deserializes to an
    empty list of SimpleEventEdition, get_last_edition_of panics (it never
    succeeds and never returns the empty-result error). -/
theorem C1_empty_editions_panics (resp : Except String (List SimpleEventEdition))
    (h : resp = Except.ok []) : get_last_edition_of resp = RunResult.panic := by
  subst h; rfl

/-- C1 witness: the amended theorem applied to the empty-list response. -/
theorem C1_empty_editions_panics_witness :
    get_last_edition_of (Except.ok ([] : List SimpleEventEdition)) = RunResult.panic :=
  C1_empty_editions_panics (Except.ok []) rfl

/-- C2 (code bug): in the default build the host literal passed to
    get_last_edition_of, "https::/obstacle.titlepack.io/api", differs from
    the well-formed host passed to get_event_edition, so the edition-list
    request URL is the malformed
    "https::/obstacle.titlepack.io/api/event/campaign" rather than a URL on
    the event-metadata host. -/
theorem C2_host_typo :
    defaultLastEditionHost ≠ defaultEventEditionHost ∧
    get_last_edition_of_url defaultLastEditionHost "campaign" =
      "https::/obstacle.titlepack.io/api/event/campaign" ∧
    get_last_edition_of_url defaultLastEditionHost "campaign" ≠
      get_last_edition_of_url defaultEventEditionHost "campaign" := by
  refine ⟨?_, rfl, ?_⟩ <;> decide

/-- C3 (counterexample to the claim as stated): a response with the
    non-success status 404 whose body is readable makes download_map
    succeed with those bytes — the status is never checked. -/
theorem C3_claim_counterexample :
    (download_map ⟨123, "uid"⟩ (fun _ => Except.ok ⟨404, Except.ok [1, 2, 3]⟩)).2 =
      Except.ok ("uid", [1, 2, 3]) := rfl

/-- C3 (amended): download_map succeeds exactly when the send succeeds and
    the body read succeeds; the response status is never inspected, so the
    result is unchanged under any change of status. A failure is returned
    as this map's own error value, surfaced to the caller. -/
theorem C3_status_ignored (map : Map) (send : HttpRequest → Except String HttpResponse) :
    ((∃ v, (download_map map send).2 = Except.ok v) ↔
      ∃ resp bs, send (downloadMapRequest map) = Except.ok resp ∧
        resp.body = Except.ok bs) ∧
    ∀ (resp : HttpResponse) (status : Nat),
      (download_map map (fun _ => Except.ok resp)).2 =
        (download_map map (fun _ => Except.ok ⟨status, resp.body⟩)).2 := by
  constructor
  · constructor
    · rintro ⟨v, hv⟩
      cases hs : send (downloadMapRequest map) with
      | error e => simp [download_map, hs] at hv
      | ok resp =>
        cases hb : resp.body with
        | error e => simp [download_map, hs, hb] at hv
        | ok bs => exact ⟨resp, bs, rfl, hb⟩
    · rintro ⟨resp, bs, hs, hb⟩
      exact ⟨(map.map_uid, bs), by simp [download_map, hs, hb]⟩
  · intro resp status
    cases hb : resp.body <;> simp [download_map, hb]

/-- C3 witness: the amended theorem applied to a concrete map and
    response, comparing statuses 500 and 200 on the same body. -/
theorem C3_status_ignored_witness :
    (download_map ⟨1, "u"⟩ (fun _ => Except.ok ⟨500, Except.ok [9]⟩)).2 =
      (download_map ⟨1, "u"⟩ (fun _ => Except.ok ⟨200, Except.ok [9]⟩)).2 :=
  (C3_status_ignored ⟨1, "u"⟩ (fun _ => Except.ok ⟨500, Except.ok [9]⟩)).2
    ⟨500, Except.ok [9]⟩ 200

/-- C5: for every non-empty edition list, get_last_edition_of returns an
    element of the list whose id is maximal; the selection is a pure
    function of the list (the underlying max_by_key fold), hence
    deterministic. -/
theorem C5_max_selection (l : List SimpleEventEdition) (h : l ≠ []) :
    ∃ x, get_last_edition_of (Except.ok l) = RunResult.ok x ∧ x ∈ l ∧
      ∀ y ∈ l, y.id ≤ x.id := by
  cases l with
  | nil => exact absurd rfl h
  | cons a as => exact ⟨pickMax a as, rfl, pickMax_mem a as, pickMax_le a as⟩

/-- C5 witness: the selection on a concrete three-element list. -/
theorem C5_max_selection_witness :
    ∃ x, get_last_edition_of (Except.ok
        [SimpleEventEdition.mk 1 "a", SimpleEventEdition.mk 3 "b", SimpleEventEdition.mk 2 "c"]) =
      RunResult.ok x ∧
      x ∈ [SimpleEventEdition.mk 1 "a", SimpleEventEdition.mk 3 "b", SimpleEventEdition.mk 2 "c"] ∧
      ∀ y ∈ [SimpleEventEdition.mk 1 "a", SimpleEventEdition.mk 3 "b",
        SimpleEventEdition.mk 2 "c"], y.id ≤ x.id :=
  C5_max_selection [⟨1, "a"⟩, ⟨3, "b"⟩, ⟨2, "c"⟩] (by simp)

/-- C6: supplying an edition id without an event handle makes main fail
    with the usage error, with zero network calls, regardless of the
    edition value and of the network environment. -/
theorem C6_edition_without_handle (o : Oracles) (edition : Nat) :
    mainResolve o none (some edition) = (RunResult.err usageErrorMsg, 0) := rfl

/-- C7: every file written by the orchestrator has path exactly
    out/event_handle/edition/category/uid.Map.Gbx carrying the bytes
    received for that map, and changing only the out argument reheads
    every effect path, leaving the rest unchanged. -/
theorem C7_output_paths (out out' event_handle : String) (edition : Nat)
    (ev : EventEdition) (send : HttpRequest → Except String HttpResponse) :
    (∀ p b, FsOp.writeFile p b ∈ (runPipeline out event_handle edition ev send).1 →
      ∃ c u, p = [out, event_handle, toString edition, c, u ++ ".Map.Gbx"] ∧
        ∃ ms, Except.ok (c, ms) ∈
            ev.categories.map (fun cat => download_category cat send) ∧
          (u, b) ∈ ms) ∧
    (runPipeline out' event_handle edition ev send).1 =
      ((runPipeline out event_handle edition ev send).1).map (FsOp.rehead out') := by
  constructor
  · intro p b hmem
    rcases writeLoop_writeFile_shape _ _ _ _ hmem with ⟨c, u, hp, ms, hms, hu⟩
    exact ⟨c, u, by simpa using hp, ms, hms, hu⟩
  · exact writeLoop_rehead out out' _ _

/-- C7 witness: the path-shape conjunct applied to the one file written by
    a concrete one-category, one-map run. -/
theorem C7_output_paths_witness :
    ∃ c u, (["o", "h", "1", "c", "u.Map.Gbx"] : List String) =
        ["o", "h", toString (1 : Nat), c, u ++ ".Map.Gbx"] ∧
      ∃ ms, Except.ok (c, ms) ∈
          (EventEdition.mk "n" 0 [Category.mk "c" [Map.mk 1 "u"]]).categories.map
            (fun cat => download_category cat (fun _ => Except.ok ⟨200, Except.ok [7]⟩)) ∧
        (u, ([7] : List Nat)) ∈ ms :=
  (C7_output_paths "o" "p" "h" 1 ⟨"n", 0, [⟨"c", [⟨1, "u"⟩]⟩]⟩
      (fun _ => Except.ok ⟨200, Except.ok [7]⟩)).1
    ["o", "h", "1", "c", "u.Map.Gbx"] [7] (by decide)

/-- C8: with neither handle nor edition supplied, main behaves exactly as
    if the handle "campaign" had been supplied alone, and when the
    edition-list response for "campaign" is a non-empty list the resolved
    id is the maximal one of the list. -/
theorem C8_default_campaign (o : Oracles) :
    mainResolve o none none = mainResolve o (some "campaign") none ∧
    ∀ l, o.lastEdition "campaign" = Except.ok l → l ≠ [] →
      ∃ ed, (mainResolve o none none).1 = RunResult.ok ("campaign", ed.id) ∧
        ed ∈ l ∧ ∀ y ∈ l, y.id ≤ ed.id := by
  refine ⟨rfl, ?_⟩
  intro l hl hne
  cases l with
  | nil => exact absurd rfl hne
  | cons a as =>
    refine ⟨pickMax a as, ?_, pickMax_mem a as, pickMax_le a as⟩
    simp [mainResolve, hl, get_last_edition_of, max_by_id, RunResult.map]

/-- C8 witness: the default resolution on a concrete environment with one
    edition of "campaign". -/
theorem C8_default_campaign_witness :
    ∃ ed, (mainResolve ⟨fun _ => Except.ok [⟨2, "x"⟩]⟩ none none).1 =
        RunResult.ok ("campaign", ed.id) ∧
      ed ∈ [SimpleEventEdition.mk 2 "x"] ∧
      ∀ y ∈ [SimpleEventEdition.mk 2 "x"], y.id ≤ ed.id :=
  (C8_default_campaign ⟨fun _ => Except.ok [⟨2, "x"⟩]⟩).2 [⟨2, "x"⟩] rfl (by simp)

/-- C9: download_map issues exactly one request, to
    content_host/maps/download/mx_id with the fixed User-Agent header, and
    on success the returned identifier is the input map's map_uid and the
    returned bytes are exactly the body of the response the network
    delivered for that one request. -/
theorem C9_download_map_request (map : Map) (send : HttpRequest → Except String HttpResponse) :
    (download_map map send).1 = [downloadMapRequest map] ∧
    (downloadMapRequest map).url =
      "https://sm.mania.exchange/maps/download/" ++ toString map.mx_id ∧
    (downloadMapRequest map).headers = [("User-Agent", "obstacle (discord @ahmadbky)")] ∧
    ∀ s bs, (download_map map send).2 = Except.ok (s, bs) →
      s = map.map_uid ∧
      ∃ resp, send (downloadMapRequest map) = Except.ok resp ∧
        resp.body = Except.ok bs := by
  refine ⟨rfl, rfl, rfl, ?_⟩
  intro s bs hok
  cases hs : send (downloadMapRequest map) with
  | error e => simp [download_map, hs] at hok
  | ok resp =>
    cases hb : resp.body with
    | error e => simp [download_map, hs, hb] at hok
    | ok bs2 =>
      simp [download_map, hs, hb] at hok
      exact ⟨hok.1.symm, resp, rfl, by rw [hb, hok.2]⟩

/-- C9 witness: for a concrete successful download, the identifier
    returned equals the input map_uid and the bytes returned are the
    response body. -/
theorem C9_download_map_request_witness :
    "u" = (Map.mk 5 "u").map_uid ∧
    ∃ resp, (Except.ok ⟨200, Except.ok [1]⟩ : Except String HttpResponse) =
        Except.ok resp ∧ resp.body = Except.ok [1] :=
  (C9_download_map_request ⟨5, "u"⟩ (fun _ => Except.ok ⟨200, Except.ok [1]⟩)).2.2.2
    "u" [1] rfl

end Soevent
